import Mathlib

/-
Verification of the CUDA elementwise kernel-launch engine in
aten/src/ATen/native/cuda/CUDALoops.cuh.

The file shallowly embeds the host-side launch drivers (`legacy::launch_kernel`,
`modern::launch_kernel`), the device kernels' index/policy computations
(`legacy::elementwise_kernel`, `modern::elementwise_kernel`) and the
vectorization-width selector (`modern::detail::can_vectorize_up_to`).

Machine integers are modelled by `Nat`/`Int`.  The `int64_t` element count `N`
is an `Int`; the implicit `int64_t -> int` conversion at the kernel boundary is
modelled by `int32cast` (two's-complement wrap-around), so that absence of
truncation is provable rather than assumed.  Device-side index arithmetic uses
`Nat`: all indices involved are nonnegative and, for the launch parameters the
file uses (powers of two, `N <= INT32_MAX`), stay within the `int` range.

The per-pointer alignment query `memory::can_vectorize_up_to<T>(ptr)` and the
policy classes live in MemoryAccess.cuh, an external collaborator that is not
part of the sources; it is kept abstract as a function parameter `mem`
from an element-type tag and a pointer address to a width.
-/

/-- Fixed launch constant `launch_size_1d` from CUDALoops.cuh. -/
def launch_size_1d : Nat := 512

/-- Fixed launch constant `launch_size_nd` from CUDALoops.cuh. -/
def launch_size_nd : Nat := 128

/-- Fixed launch constant `launch_bound2` from CUDALoops.cuh. -/
def launch_bound2 : Nat := 4

/-- Value of `std::numeric_limits<int32_t>::max()`. -/
def INT32_MAX : Int := 2147483647

/-- Two's-complement conversion of an `int64_t` value to `int` (32 bit),
modelling the implicit narrowing at the `elementwise_kernel(int N, ...)`
call boundary. -/
def int32cast (n : Int) : Int := (n + 2147483648) % 4294967296 - 2147483648

/-- Record of one issued device kernel: grid size, block size, the
vectorization width the dispatched specialization was instantiated with
(`none` for the legacy kernel, which has no such template parameter), and
the element count received by the kernel after the `int64_t -> int`
conversion. -/
structure KernelLaunch where
  grid : Nat
  block : Nat
  vec : Option Nat
  kernelN : Int
deriving DecidableEq, Repr

/-- Message of `TORCH_INTERNAL_ASSERT(N >= 0 && N <= std::numeric_limits<int32_t>::max())`. -/
def rangeAssertMsg : String := "N >= 0 && N <= std::numeric_limits<int32_t>::max()"

/-- Message of `TORCH_INTERNAL_ASSERT(false, "Unexpected vectorization size")`. -/
def vecAssertMsg : String := "Unexpected vectorization size"

namespace legacy

/-- Device-side index walk of one thread of `legacy::elementwise_kernel<nt, vt>`:
starting from `idx = nt * vt * blockIdx + tid`, the `#pragma unroll` loop runs
`vt` times; each iteration invokes `f idx` when `idx < N` and then advances
`idx` by `nt` (the advance happens only under the guard, exactly as in the
source).  The returned list is the sequence of indices `f` is invoked on. -/
def thread_indices (nt N : Nat) : Nat → Nat → List Nat
  | 0, _ => []
  | i + 1, idx =>
    if idx < N then idx :: thread_indices nt N i (idx + nt)
    else thread_indices nt N i idx

/-- Indices on which `f` is invoked across a whole launch of
`legacy::elementwise_kernel<nt, vt>` with `grid` blocks of `nt` threads:
block `b`, thread `tid` starts at `idx = nt * vt * b + tid`. -/
def kernel_invocations (nt vt N grid : Nat) : List Nat :=
  (List.range grid).flatMap fun b =>
    (List.range nt).flatMap fun tid =>
      thread_indices nt N vt (nt * vt * b + tid)

/-- Host-side `legacy::launch_kernel<nt, vt>(N, f)`: assert
`N >= 0 && N <= INT32_MAX`, return without launching when `N == 0`, otherwise
issue `elementwise_kernel` on a grid of `(N + nt*vt - 1) / (nt*vt)` blocks of
`nt` threads (at this point `1 <= N`, so the `int64_t` division equals the
natural-number division on `N.toNat`). -/
def launch_kernel (nt vt : Nat) (N : Int) : Except String (Option KernelLaunch) :=
  if ¬ (0 ≤ N ∧ N ≤ INT32_MAX) then Except.error rangeAssertMsg
  else if N = 0 then Except.ok none
  else Except.ok (some
    { grid := (N.toNat + nt * vt - 1) / (nt * vt)
      block := nt
      vec := none
      kernelN := int32cast N })

end legacy

namespace modern

/-- Tag for a C++ element type.  `dont_care` is the placeholder struct
`modern::detail::arg_type::dont_care` used as "argument type" of a nullary
function. -/
inductive CType where
  | base (name : String)
  | dont_care
deriving DecidableEq, Repr

namespace detail

/-- Embedding of `modern::detail::arg_type::type<func_t>` via
`arg_type_helper`: the declared type of argument 0 for a function of positive
arity, and `dont_care` for the nullary specialization. -/
def arg_type (f_arg0 : CType) : Nat → CType
  | 0 => CType.dont_care
  | _ + 1 => f_arg0

/-- Embedding of `modern::detail::can_vectorize_up_to<func_t>(pointers)`.
`mem t a` plays the role of the external `memory::can_vectorize_up_to<t>(a)`
from MemoryAccess.cuh.  `result` starts as the width of the output pointer
`pointers[0]` for the return type; the unrolled loop then takes the `min`
with the width of each input pointer `pointers[i + 1]` for the argument
type. -/
def can_vectorize_up_to (mem : CType → Nat → Int) (return_t f_arg0 : CType)
    (arity : Nat) (pointers : Nat → Nat) : Int :=
  (List.range arity).foldl
    (fun result i => min result (mem (arg_type f_arg0 arity) (pointers (i + 1))))
    (mem return_t (pointers 0))

end detail

/-- Modelled from the spec: `memory::policies<num_threads, thread_work_size>::common::block_work_size`
is defined in MemoryAccess.cuh, which is not among the sources; the spec fixes
block work size = threads × per-thread work size ("a *block work size*
(elements processed per block = threads × thread work size)"). -/
def block_work_size (num_threads thread_work_size : Nat) : Nat :=
  num_threads * thread_work_size

/-- Execution policy chosen by one block of `modern::elementwise_kernel`:
either the bounds-checked unrolled policy `policies::checked_unroll(remaining)`
or the vectorized policy `policies::vectorized<vec_size>`. -/
inductive PolicyChoice where
  | checked_unroll (remaining : Int)
  | vectorized (vec_size : Nat)
deriving DecidableEq, Repr

/-- Policy selection of `modern::elementwise_kernel<vec_size, num_threads,
thread_work_size>` for block `blockIdx`: compute
`remaining = N - block_work_size * blockIdx` and use `checked_unroll remaining`
when `remaining < block_work_size`, the vectorized policy otherwise. -/
def elementwise_kernel (vec_size num_threads thread_work_size : Nat) (N : Int)
    (blockIdx : Nat) : PolicyChoice :=
  let remaining : Int := N - (block_work_size num_threads thread_work_size : Nat) * blockIdx
  if remaining < (block_work_size num_threads thread_work_size : Nat) then
    PolicyChoice.checked_unroll remaining
  else
    PolicyChoice.vectorized vec_size

/-- Host-side `modern::launch_kernel<nt, vt>(N, f, data)` (the overload enabled
by `has_same_arg_types<func_t>`): assert the range of `N`, return without
launching when `N == 0`, otherwise compute the grid, query
`detail::can_vectorize_up_to` and `switch` on the result, dispatching the
kernel specialization of width 4, 2 or 1, and hitting
`TORCH_INTERNAL_ASSERT(false, "Unexpected vectorization size")` in the
`default` case. -/
def launch_kernel (nt vt : Nat) (N : Int) (mem : CType → Nat → Int)
    (return_t f_arg0 : CType) (arity : Nat) (pointers : Nat → Nat) :
    Except String (Option KernelLaunch) :=
  if ¬ (0 ≤ N ∧ N ≤ INT32_MAX) then Except.error rangeAssertMsg
  else if N = 0 then Except.ok none
  else
    let grid := (N.toNat + nt * vt - 1) / (nt * vt)
    let vec_size := detail.can_vectorize_up_to mem return_t f_arg0 arity pointers
    if vec_size = 4 then
      Except.ok (some { grid := grid, block := nt, vec := some 4, kernelN := int32cast N })
    else if vec_size = 2 then
      Except.ok (some { grid := grid, block := nt, vec := some 2, kernelN := int32cast N })
    else if vec_size = 1 then
      Except.ok (some { grid := grid, block := nt, vec := some 1, kernelN := int32cast N })
    else Except.error vecAssertMsg

/-- Host-side `modern::launch_kernel<nt, vt>(N, f, data)` overload selected
when `has_same_arg_types<func_t>` is false: its body is empty, so it returns
normally, checks nothing and issues nothing. -/
def launch_kernel_mixed (nt vt : Nat) (N : Int) (pointers : Nat → Nat) :
    Except String (Option KernelLaunch) :=
  Except.ok none

end modern

/-- Concrete per-pointer width function used to instantiate witness theorems:
width 4 for 16-byte-aligned addresses, 2 for 8-byte-aligned ones, 1 otherwise
(a 4-byte element type). -/
def memW : modern.CType → Nat → Int :=
  fun _ a => if a % 16 = 0 then 4 else if a % 8 = 0 then 2 else 1

/-- Concrete pointer array used to instantiate witness theorems. -/
def ptrW : Nat → Nat := fun i => 8 * i

/- Helper lemmas about `foldl min`, used for the vectorization-width
selector. -/

theorem foldl_min_le_init (l : List Int) (a : Int) : l.foldl min a ≤ a := by
  induction l generalizing a with
  | nil => exact le_refl a
  | cons x l ih =>
      calc (x :: l).foldl min a = l.foldl min (min a x) := rfl
        _ ≤ min a x := ih (min a x)
        _ ≤ a := min_le_left a x

theorem foldl_min_le_of_mem (l : List Int) (a x : Int) (hx : x ∈ l) :
    l.foldl min a ≤ x := by
  induction l generalizing a with
  | nil => cases hx
  | cons y l ih =>
      rcases List.mem_cons.mp hx with h | h
      · subst h
        calc (x :: l).foldl min a = l.foldl min (min a x) := rfl
          _ ≤ min a x := foldl_min_le_init l (min a x)
          _ ≤ x := min_le_right a x
      · exact ih (min a y) h

theorem le_foldl_min (l : List Int) (a w : Int) (ha : w ≤ a)
    (hl : ∀ x ∈ l, w ≤ x) : w ≤ l.foldl min a := by
  induction l generalizing a with
  | nil => exact ha
  | cons y l ih =>
      exact ih (min a y) (le_min ha (hl y (List.mem_cons_self y l)))
        (fun x hx => hl x (List.mem_cons_of_mem y hx))

theorem vec_msg_ne_range_msg : vecAssertMsg ≠ rangeAssertMsg := by decide

/-- C1: in `modern::elementwise_kernel`, block `b` uses the checked/unrolled
policy if and only if `remaining = N - block_work_size * b < block_work_size`;
the vectorized policy is chosen exactly otherwise, and when it is chosen every
index of the block's full `block_work_size`-element chunk is below `N`, so the
vectorized branch never covers an index at or past `N`. -/
theorem modern_policy_selection (vec nt vt : Nat) (N : Int) (b : Nat) :
    (modern.elementwise_kernel vec nt vt N b =
        modern.PolicyChoice.checked_unroll (N - (modern.block_work_size nt vt : Int) * b) ↔
      N - (modern.block_work_size nt vt : Int) * b < (modern.block_work_size nt vt : Int)) ∧
    (modern.elementwise_kernel vec nt vt N b = modern.PolicyChoice.vectorized vec ↔
      ¬ N - (modern.block_work_size nt vt : Int) * b < (modern.block_work_size nt vt : Int)) ∧
    (modern.elementwise_kernel vec nt vt N b = modern.PolicyChoice.vectorized vec →
      ∀ idx : Nat, idx < modern.block_work_size nt vt * (b + 1) → (idx : Int) < N) := by
  unfold modern.elementwise_kernel
  dsimp only
  split_ifs with h
  · refine ⟨by simp [h], by simp [h], ?_⟩
    intro hcontra
    cases hcontra
  · refine ⟨by simp [h], by simp [h], ?_⟩
    intro _ idx hidx
    have h2 : (modern.block_work_size nt vt : Int) ≤
        N - (modern.block_work_size nt vt : Int) * b := not_lt.mp h
    have h3 : (idx : Int) < (modern.block_work_size nt vt : Int) * ((b : Int) + 1) := by
      exact_mod_cast hidx
    have h4 : (modern.block_work_size nt vt : Int) * ((b : Int) + 1) =
        (modern.block_work_size nt vt : Int) * b + (modern.block_work_size nt vt : Int) := by
      ring
    linarith

/-- C1 witness: with `nt = 128`, `vt = 4`, `N = 1000`, block 1 takes the
checked policy with remaining 488 and block 0 is vectorized with every covered
index below 1000. -/
theorem modern_policy_selection_witness :
    (modern.elementwise_kernel 4 128 4 1000 1 =
        modern.PolicyChoice.checked_unroll (1000 - (modern.block_work_size 128 4 : Int) * 1) ↔
      1000 - (modern.block_work_size 128 4 : Int) * 1 < (modern.block_work_size 128 4 : Int)) ∧
    (modern.elementwise_kernel 4 128 4 1000 1 = modern.PolicyChoice.vectorized 4 ↔
      ¬ 1000 - (modern.block_work_size 128 4 : Int) * 1 < (modern.block_work_size 128 4 : Int)) ∧
    (modern.elementwise_kernel 4 128 4 1000 1 = modern.PolicyChoice.vectorized 4 →
      ∀ idx : Nat, idx < modern.block_work_size 128 4 * (1 + 1) → (idx : Int) < 1000) :=
  modern_policy_selection 4 128 4 1000 1

/-- C2: launching with `N = 0` is a no-op for both the legacy and the modern
driver: the function returns normally and no kernel is issued. -/
theorem launch_zero_noop (nt vt : Nat) (mem : modern.CType → Nat → Int)
    (return_t f_arg0 : modern.CType) (arity : Nat) (pointers : Nat → Nat) :
    legacy.launch_kernel nt vt 0 = Except.ok none ∧
    modern.launch_kernel nt vt 0 mem return_t f_arg0 arity pointers = Except.ok none := by
  constructor <;> rfl

/-- C4: `modern::detail::can_vectorize_up_to` returns the minimum over the
per-pointer feasible widths — the width of the output pointer `pointers[0]`
for the return type and the width of each input pointer `pointers[i + 1]` for
the argument type: the result is a lower bound of every per-pointer width, and
it is the greatest such bound, so it never exceeds any single tensor's
feasible width. -/
theorem can_vectorize_up_to_min_contract (mem : modern.CType → Nat → Int)
    (return_t f_arg0 : modern.CType) (arity : Nat) (pointers : Nat → Nat) :
    modern.detail.can_vectorize_up_to mem return_t f_arg0 arity pointers ≤
      mem return_t (pointers 0) ∧
    (∀ i, i < arity →
      modern.detail.can_vectorize_up_to mem return_t f_arg0 arity pointers ≤
        mem (modern.detail.arg_type f_arg0 arity) (pointers (i + 1))) ∧
    (∀ w : Int, w ≤ mem return_t (pointers 0) →
      (∀ i, i < arity →
        w ≤ mem (modern.detail.arg_type f_arg0 arity) (pointers (i + 1))) →
      w ≤ modern.detail.can_vectorize_up_to mem return_t f_arg0 arity pointers) := by
  have hrw : modern.detail.can_vectorize_up_to mem return_t f_arg0 arity pointers =
      ((List.range arity).map
        (fun i => mem (modern.detail.arg_type f_arg0 arity) (pointers (i + 1)))).foldl
        min (mem return_t (pointers 0)) := by
    unfold modern.detail.can_vectorize_up_to
    rw [List.foldl_map]
  refine ⟨?_, ?_, ?_⟩
  · rw [hrw]; exact foldl_min_le_init _ _
  · intro i hi
    rw [hrw]
    exact foldl_min_le_of_mem _ _ _
      (List.mem_map_of_mem _ (List.mem_range.mpr hi))
  · intro w hw0 hwi
    rw [hrw]
    refine le_foldl_min _ _ _ hw0 ?_
    intro x hx
    rcases List.mem_map.mp hx with ⟨i, hi, rfl⟩
    exact hwi i (List.mem_range.mp hi)

/-- C4 witness: the contract instantiated at a binary function with all
pointers 8-byte aligned. -/
theorem can_vectorize_up_to_min_contract_witness :
    modern.detail.can_vectorize_up_to memW (modern.CType.base "float")
      (modern.CType.base "float") 2 ptrW ≤ memW (modern.CType.base "float") (ptrW 0) ∧
    (∀ i, i < 2 →
      modern.detail.can_vectorize_up_to memW (modern.CType.base "float")
          (modern.CType.base "float") 2 ptrW ≤
        memW (modern.detail.arg_type (modern.CType.base "float") 2) (ptrW (i + 1))) ∧
    (∀ w : Int, w ≤ memW (modern.CType.base "float") (ptrW 0) →
      (∀ i, i < 2 →
        w ≤ memW (modern.detail.arg_type (modern.CType.base "float") 2) (ptrW (i + 1))) →
      w ≤ modern.detail.can_vectorize_up_to memW (modern.CType.base "float")
        (modern.CType.base "float") 2 ptrW) :=
  can_vectorize_up_to_min_contract memW (modern.CType.base "float")
    (modern.CType.base "float") 2 ptrW

/-- C3: both launch drivers raise the fatal range assertion
`TORCH_INTERNAL_ASSERT(N >= 0 && N <= std::numeric_limits<int32_t>::max())`
exactly when `N < 0` or `N > INT32_MAX`; the failure carries no issued kernel,
and for `N` in `[0, INT32_MAX]` the assertion never fires and the value of `N`
a kernel receives through the `int64_t -> int` conversion is `N` itself — no
silent truncation. -/
theorem launch_range_assert (nt vt : Nat) (N : Int) (mem : modern.CType → Nat → Int)
    (return_t f_arg0 : modern.CType) (arity : Nat) (pointers : Nat → Nat) :
    (legacy.launch_kernel nt vt N = Except.error rangeAssertMsg ↔
      (N < 0 ∨ INT32_MAX < N)) ∧
    (modern.launch_kernel nt vt N mem return_t f_arg0 arity pointers =
        Except.error rangeAssertMsg ↔ (N < 0 ∨ INT32_MAX < N)) ∧
    (∀ kl, legacy.launch_kernel nt vt N = Except.ok (some kl) → kl.kernelN = N) ∧
    (∀ kl, modern.launch_kernel nt vt N mem return_t f_arg0 arity pointers =
        Except.ok (some kl) → kl.kernelN = N) := by
  by_cases hr : 0 ≤ N ∧ N ≤ INT32_MAX
  · have hcast : int32cast N = N := by
      have h1 := hr.1
      have h2 := hr.2
      unfold int32cast
      unfold INT32_MAX at h2
      omega
    unfold legacy.launch_kernel modern.launch_kernel
    rw [if_neg (not_not_intro hr), if_neg (not_not_intro hr)]
    dsimp only
    have hside : ¬ (N < 0 ∨ INT32_MAX < N) := by
      push_neg
      exact ⟨hr.1, hr.2⟩
    refine ⟨?_, ?_, ?_, ?_⟩
    · constructor
      · intro h
        split_ifs at h
      · intro h
        exact absurd h hside
    · constructor
      · intro h
        split_ifs at h
        exact absurd (Except.error.inj h) vec_msg_ne_range_msg
      · intro h
        exact absurd h hside
    · intro kl hkl
      split_ifs at hkl
      · exact absurd (Except.ok.inj hkl) (by simp)
      · cases Option.some.inj (Except.ok.inj hkl)
        exact hcast
    · intro kl hkl
      split_ifs at hkl
      · exact absurd (Except.ok.inj hkl) (by simp)
      · cases Option.some.inj (Except.ok.inj hkl)
        exact hcast
      · cases Option.some.inj (Except.ok.inj hkl)
        exact hcast
      · cases Option.some.inj (Except.ok.inj hkl)
        exact hcast
  · have hside : N < 0 ∨ INT32_MAX < N := by
      rcases not_and_or.mp hr with h | h
      · exact Or.inl (not_le.mp h)
      · exact Or.inr (not_le.mp h)
    unfold legacy.launch_kernel modern.launch_kernel
    rw [if_pos hr, if_pos hr]
    refine ⟨⟨fun _ => hside, fun _ => rfl⟩, ⟨fun _ => hside, fun _ => rfl⟩, ?_, ?_⟩ <;>
      · intro kl hkl
        cases hkl

/-- C3 witness: at `nt = 128`, `vt = 4`, `N = 1000` the assertion does not
fire (1000 is in range) and the kernel receives exactly 1000. -/
theorem launch_range_assert_witness :
    (legacy.launch_kernel 128 4 1000 = Except.error rangeAssertMsg ↔
      ((1000 : Int) < 0 ∨ INT32_MAX < 1000)) ∧
    (modern.launch_kernel 128 4 1000 memW (modern.CType.base "float")
        (modern.CType.base "float") 1 ptrW = Except.error rangeAssertMsg ↔
      ((1000 : Int) < 0 ∨ INT32_MAX < 1000)) ∧
    (∀ kl, legacy.launch_kernel 128 4 1000 = Except.ok (some kl) →
      kl.kernelN = 1000) ∧
    (∀ kl, modern.launch_kernel 128 4 1000 memW (modern.CType.base "float")
        (modern.CType.base "float") 1 ptrW = Except.ok (some kl) →
      kl.kernelN = 1000) :=
  launch_range_assert 128 4 1000 memW (modern.CType.base "float")
    (modern.CType.base "float") 1 ptrW

/-- C5: for `N` in `[1, INT32_MAX]`, when the selected vectorization width is
4, 2 or 1, `modern::launch_kernel` dispatches the kernel specialization of
exactly that width; for any other selector value it raises the fatal
"Unexpected vectorization size" assertion, so the launch never proceeds with a
width outside 1, 2, 4. -/
theorem modern_dispatch_width (nt vt : Nat) (N : Int) (mem : modern.CType → Nat → Int)
    (return_t f_arg0 : modern.CType) (arity : Nat) (pointers : Nat → Nat)
    (h1 : 1 ≤ N) (h2 : N ≤ INT32_MAX) :
    ((modern.detail.can_vectorize_up_to mem return_t f_arg0 arity pointers = 4 ∨
      modern.detail.can_vectorize_up_to mem return_t f_arg0 arity pointers = 2 ∨
      modern.detail.can_vectorize_up_to mem return_t f_arg0 arity pointers = 1) →
      modern.launch_kernel nt vt N mem return_t f_arg0 arity pointers =
        Except.ok (some
          { grid := (N.toNat + nt * vt - 1) / (nt * vt)
            block := nt
            vec := some (modern.detail.can_vectorize_up_to mem return_t f_arg0
              arity pointers).toNat
            kernelN := int32cast N })) ∧
    (¬ (modern.detail.can_vectorize_up_to mem return_t f_arg0 arity pointers = 4 ∨
        modern.detail.can_vectorize_up_to mem return_t f_arg0 arity pointers = 2 ∨
        modern.detail.can_vectorize_up_to mem return_t f_arg0 arity pointers = 1) →
      modern.launch_kernel nt vt N mem return_t f_arg0 arity pointers =
        Except.error vecAssertMsg) := by
  have hin : 0 ≤ N ∧ N ≤ INT32_MAX := ⟨le_trans zero_le_one h1, h2⟩
  have hne : ¬ N = 0 := by omega
  unfold modern.launch_kernel
  rw [if_neg (not_not_intro hin), if_neg hne]
  dsimp only
  constructor
  · rintro (h | h | h) <;> simp [h]
  · intro h
    push_neg at h
    rw [if_neg h.1, if_neg h.2.1, if_neg h.2.2]

/-- C5 witness: with a width function returning 2 everywhere, the launch at
`N = 7` dispatches the width-2 specialization. -/
theorem modern_dispatch_width_witness :
    ((modern.detail.can_vectorize_up_to (fun _ _ => 2) (modern.CType.base "float")
        (modern.CType.base "float") 1 ptrW = 4 ∨
      modern.detail.can_vectorize_up_to (fun _ _ => 2) (modern.CType.base "float")
        (modern.CType.base "float") 1 ptrW = 2 ∨
      modern.detail.can_vectorize_up_to (fun _ _ => 2) (modern.CType.base "float")
        (modern.CType.base "float") 1 ptrW = 1) →
      modern.launch_kernel 128 4 7 (fun _ _ => 2) (modern.CType.base "float")
          (modern.CType.base "float") 1 ptrW =
        Except.ok (some
          { grid := ((7 : Int).toNat + 128 * 4 - 1) / (128 * 4)
            block := 128
            vec := some (modern.detail.can_vectorize_up_to (fun _ _ => 2)
              (modern.CType.base "float") (modern.CType.base "float") 1 ptrW).toNat
            kernelN := int32cast 7 })) ∧
    (¬ (modern.detail.can_vectorize_up_to (fun _ _ => 2) (modern.CType.base "float")
          (modern.CType.base "float") 1 ptrW = 4 ∨
        modern.detail.can_vectorize_up_to (fun _ _ => 2) (modern.CType.base "float")
          (modern.CType.base "float") 1 ptrW = 2 ∨
        modern.detail.can_vectorize_up_to (fun _ _ => 2) (modern.CType.base "float")
          (modern.CType.base "float") 1 ptrW = 1) →
      modern.launch_kernel 128 4 7 (fun _ _ => 2) (modern.CType.base "float")
          (modern.CType.base "float") 1 ptrW = Except.error vecAssertMsg) :=
  modern_dispatch_width 128 4 7 (fun _ _ => 2) (modern.CType.base "float")
    (modern.CType.base "float") 1 ptrW (by norm_num) (by norm_num [INT32_MAX])

/-- C9: for `N` in `[1, INT32_MAX]` and any block `b` actually launched
(`b < grid = ceil(N / (nt * vt))`), the block's `remaining` is at least 1:
the checked/unrolled policy is never constructed with a zero or negative
bound, and every launched block processes at least one element. -/
theorem modern_launched_block_remaining_pos (vec nt vt : Nat) (N : Int) (b : Nat)
    (hnt : 0 < nt) (hvt : 0 < vt) (hN : 1 ≤ N)
    (hb : b < (N.toNat + nt * vt - 1) / (nt * vt)) :
    1 ≤ N - (modern.block_work_size nt vt : Int) * b ∧
    ∀ r, modern.elementwise_kernel vec nt vt N b =
      modern.PolicyChoice.checked_unroll r → 1 ≤ r := by
  have hnv : 0 < nt * vt := Nat.mul_pos hnt hvt
  have hmul : (b + 1) * (nt * vt) ≤ N.toNat + nt * vt - 1 :=
    (Nat.le_div_iff_mul_le hnv).mp (Nat.succ_le_of_lt hb)
  have hexp : (b + 1) * (nt * vt) = b * (nt * vt) + nt * vt := by ring
  have hM : 1 ≤ N.toNat := by omega
  have hP : b * (nt * vt) + 1 ≤ N.toNat := by omega
  have hcast : ((b * (nt * vt) : Nat) : Int) =
      (modern.block_work_size nt vt : Int) * (b : Int) := by
    unfold modern.block_work_size
    push_cast
    ring
  have hMN : ((N.toNat : Nat) : Int) = N := Int.toNat_of_nonneg (by omega)
  have hmain : 1 ≤ N - (modern.block_work_size nt vt : Int) * b := by
    have := (Int.ofNat_le.mpr hP)
    push_cast at this
    rw [show ((b : Int) * ((nt : Int) * (vt : Int))) =
        (modern.block_work_size nt vt : Int) * (b : Int) by
      unfold modern.block_work_size; push_cast; ring] at this
    omega
  refine ⟨hmain, ?_⟩
  intro r hr
  unfold modern.elementwise_kernel at hr
  dsimp only at hr
  split_ifs at hr with h
  · cases modern.PolicyChoice.checked_unroll.inj hr
    exact hmain

/-- C9 witness: at `N = 1000`, `nt = 128`, `vt = 4`, block 1 (the last block
of the 2-block grid) has remaining 488 ≥ 1. -/
theorem modern_launched_block_remaining_pos_witness :
    1 ≤ (1000 : Int) - (modern.block_work_size 128 4 : Int) * 1 ∧
    ∀ r, modern.elementwise_kernel 4 128 4 1000 1 =
      modern.PolicyChoice.checked_unroll r → 1 ≤ r :=
  modern_launched_block_remaining_pos 4 128 4 1000 1 (by norm_num) (by norm_num)
    (by norm_num) (by decide)

/-- C6: Scenario A: with `N = 1000`, `nt = 128`, `vt = 4`
(`block_work_size = 512`) and pointers vectorizable to width 4, the launch
issues a grid of exactly 2 blocks; block 0 (remaining 1000) takes the
vectorized policy and block 1 (remaining 488) the checked/unrolled policy. -/
theorem scenario_a_two_blocks :
    modern.launch_kernel 128 4 1000 (fun _ _ => 4) (modern.CType.base "float")
        (modern.CType.base "float") 1 (fun _ => 0) =
      Except.ok (some { grid := 2, block := 128, vec := some 4, kernelN := 1000 }) ∧
    modern.elementwise_kernel 4 128 4 1000 0 = modern.PolicyChoice.vectorized 4 ∧
    modern.elementwise_kernel 4 128 4 1000 1 = modern.PolicyChoice.checked_unroll 488 := by
  refine ⟨?_, ?_, ?_⟩ <;> rfl

/-- C8: the modern launch overload for functions whose argument types are not
all the same has an empty body: for every `N` and every pointer array it
returns normally, raises no error and issues no kernel. -/
theorem mixed_arg_types_silent_noop (nt vt : Nat) (N : Int) (pointers : Nat → Nat) :
    modern.launch_kernel_mixed nt vt N pointers = Except.ok none := rfl

/- Lemmas for the legacy kernel's index coverage. -/

theorem thread_indices_succ (nt N i idx : Nat) :
    legacy.thread_indices nt N (i + 1) idx =
      if idx < N then idx :: legacy.thread_indices nt N i (idx + nt)
      else legacy.thread_indices nt N i idx := by
  simp only [legacy.thread_indices]

theorem thread_indices_of_ge (nt N : Nat) :
    ∀ (i idx : Nat), N ≤ idx → legacy.thread_indices nt N i idx = [] := by
  intro i
  induction i with
  | zero => intro idx _; rfl
  | succ i ih =>
      intro idx h
      rw [thread_indices_succ, if_neg (not_lt.mpr h)]
      exact ih idx h

theorem mem_thread_indices (nt N : Nat) :
    ∀ (i idx k : Nat),
      k ∈ legacy.thread_indices nt N i idx ↔
        k < N ∧ ∃ j, j < i ∧ k = idx + j * nt := by
  intro i
  induction i with
  | zero =>
      intro idx k
      constructor
      · intro h; cases h
      · rintro ⟨_, j, hj, _⟩
        exact absurd hj (Nat.not_lt_zero j)
  | succ i ih =>
      intro idx k
      by_cases h : idx < N
      · rw [thread_indices_succ, if_pos h]
        rw [List.mem_cons, ih]
        constructor
        · rintro (rfl | ⟨hkN, j, hj, rfl⟩)
          · exact ⟨h, 0, Nat.succ_pos i, by simp⟩
          · exact ⟨hkN, j + 1, by omega, by ring⟩
        · rintro ⟨hkN, j, hj, rfl⟩
          cases j with
          | zero => left; simp
          | succ j => exact Or.inr ⟨hkN, j, by omega, by ring⟩
      · rw [thread_indices_succ, if_neg h]
        rw [thread_indices_of_ge nt N i idx (not_lt.mp h)]
        constructor
        · intro hc; cases hc
        · rintro ⟨hkN, j, hj, rfl⟩
          exact absurd hkN
            (Nat.not_lt.mpr (le_trans (not_lt.mp h) (Nat.le_add_right idx (j * nt))))

theorem thread_indices_lb (nt N i idx x : Nat)
    (hx : x ∈ legacy.thread_indices nt N i idx) : idx ≤ x := by
  rcases (mem_thread_indices nt N i idx x).mp hx with ⟨_, j, _, rfl⟩
  exact Nat.le_add_right _ _

theorem thread_indices_pairwise (nt N : Nat) (hnt : 0 < nt) :
    ∀ (i idx : Nat), List.Pairwise (· < ·) (legacy.thread_indices nt N i idx) := by
  intro i
  induction i with
  | zero => intro idx; exact List.Pairwise.nil
  | succ i ih =>
      intro idx
      by_cases h : idx < N
      · rw [thread_indices_succ, if_pos h]
        refine List.Pairwise.cons ?_ (ih (idx + nt))
        intro x hx
        have := thread_indices_lb nt N i (idx + nt) x hx
        omega
      · rw [thread_indices_succ, if_neg h]
        exact ih idx

theorem thread_indices_nodup (nt N : Nat) (hnt : 0 < nt) (i idx : Nat) :
    (legacy.thread_indices nt N i idx).Nodup :=
  (thread_indices_pairwise nt N hnt i idx).imp Nat.ne_of_lt

theorem thread_indices_length_le (nt N : Nat) :
    ∀ (i idx : Nat), (legacy.thread_indices nt N i idx).length ≤ i := by
  intro i
  induction i with
  | zero => intro idx; exact Nat.le_refl 0
  | succ i ih =>
      intro idx
      by_cases h : idx < N
      · rw [thread_indices_succ, if_pos h]
        exact Nat.succ_le_succ (ih (idx + nt))
      · rw [thread_indices_succ, if_neg h]
        exact le_trans (ih idx) (Nat.le_succ i)

theorem mem_legacy_invocations (nt vt N grid k : Nat) :
    k ∈ legacy.kernel_invocations nt vt N grid ↔
      k < N ∧ ∃ b, b < grid ∧ ∃ tid, tid < nt ∧ ∃ j, j < vt ∧
        k = nt * vt * b + tid + j * nt := by
  unfold legacy.kernel_invocations
  simp only [List.mem_flatMap, List.mem_range, mem_thread_indices]
  constructor
  · rintro ⟨b, hb, tid, htid, hkN, j, hj, rfl⟩
    exact ⟨hkN, b, hb, tid, htid, j, hj, rfl⟩
  · rintro ⟨hkN, b, hb, tid, htid, j, hj, rfl⟩
    exact ⟨b, hb, tid, htid, hkN, j, hj, rfl⟩

theorem index_decomposition (nt vt k : Nat) (hnt : 0 < nt) (hvt : 0 < vt) :
    k % nt < nt ∧ (k / nt) % vt < vt ∧
      k = nt * vt * (k / (nt * vt)) + k % nt + ((k / nt) % vt) * nt := by
  refine ⟨Nat.mod_lt k hnt, Nat.mod_lt (k / nt) hvt, ?_⟩
  have key : nt * (k / nt) = nt * vt * (k / (nt * vt)) + ((k / nt) % vt) * nt := by
    calc nt * (k / nt) = nt * (vt * (k / nt / vt) + (k / nt) % vt) := by
          rw [Nat.div_add_mod (k / nt) vt]
      _ = nt * vt * (k / nt / vt) + ((k / nt) % vt) * nt := by ring
      _ = nt * vt * (k / (nt * vt)) + ((k / nt) % vt) * nt := by
          rw [Nat.div_div_eq_div_mul]
  calc k = nt * (k / nt) + k % nt := (Nat.div_add_mod k nt).symm
    _ = nt * vt * (k / (nt * vt)) + ((k / nt) % vt) * nt + k % nt := by rw [key]
    _ = nt * vt * (k / (nt * vt)) + k % nt + ((k / nt) % vt) * nt := by ring

theorem index_unique (nt vt k b tid j : Nat) (htid : tid < nt) (hj : j < vt)
    (heq : k = nt * vt * b + tid + j * nt) :
    tid = k % nt ∧ j = (k / nt) % vt ∧ b = k / (nt * vt) := by
  have hnt : 0 < nt := lt_of_le_of_lt (Nat.zero_le tid) htid
  have hvt : 0 < vt := lt_of_le_of_lt (Nat.zero_le j) hj
  have hform : k = nt * (vt * b + j) + tid := by rw [heq]; ring
  have hmod : k % nt = tid := by
    rw [hform, Nat.mul_add_mod, Nat.mod_eq_of_lt htid]
  have hdiv : k / nt = vt * b + j := by
    rw [hform, Nat.mul_add_div hnt, Nat.div_eq_of_lt htid, Nat.add_zero]
  have hmod2 : (k / nt) % vt = j := by
    rw [hdiv, Nat.mul_add_mod, Nat.mod_eq_of_lt hj]
  have hdiv2 : k / nt / vt = b := by
    rw [hdiv, Nat.mul_add_div hvt, Nat.div_eq_of_lt hj, Nat.add_zero]
  exact ⟨hmod.symm, hmod2.symm, by rw [← Nat.div_div_eq_div_mul, hdiv2]⟩

theorem div_lt_ceil_div (nv N k : Nat) (hnv : 0 < nv) (hk : k < N) :
    k / nv < (N + nv - 1) / nv := by
  have h1 : k / nv ≤ (N - 1) / nv := Nat.div_le_div_right (by omega)
  have h2 : N + nv - 1 = (N - 1) + nv := by omega
  rw [h2, Nat.add_div_right _ hnv]
  omega

theorem thread_indices_mod (nt vt N b tid x : Nat) (htid : tid < nt)
    (hx : x ∈ legacy.thread_indices nt N vt (nt * vt * b + tid)) :
    x % nt = tid := by
  rcases (mem_thread_indices nt N vt _ x).mp hx with ⟨_, j, hj, rfl⟩
  exact ((index_unique nt vt _ b tid j htid hj rfl).1).symm

theorem thread_indices_block_range (nt vt N b tid x : Nat) (htid : tid < nt)
    (hx : x ∈ legacy.thread_indices nt N vt (nt * vt * b + tid)) :
    nt * vt * b ≤ x ∧ x < nt * vt * (b + 1) := by
  rcases (mem_thread_indices nt N vt _ x).mp hx with ⟨_, j, hj, rfl⟩
  constructor
  · exact le_trans (Nat.le_add_right _ tid) (Nat.le_add_right _ _)
  · have h1 : (j + 1) * nt ≤ vt * nt := Nat.mul_le_mul_right nt hj
    have h2 : nt * vt * (b + 1) = nt * vt * b + vt * nt := by ring
    have h3 : (j + 1) * nt = j * nt + nt := by ring
    linarith

theorem legacy_invocations_nodup (nt vt N grid : Nat) :
    (legacy.kernel_invocations nt vt N grid).Nodup := by
  unfold legacy.kernel_invocations
  rw [List.nodup_flatMap]
  constructor
  · intro b _
    rw [List.nodup_flatMap]
    constructor
    · intro tid htid
      exact thread_indices_nodup nt N
        (lt_of_le_of_lt (Nat.zero_le tid) (List.mem_range.mp htid)) vt _
    · refine (List.pairwise_lt_range nt).imp_of_mem ?_
      intro tid1 tid2 h1 h2 hlt x hx1 hx2
      have e1 := thread_indices_mod nt vt N b tid1 x (List.mem_range.mp h1) hx1
      have e2 := thread_indices_mod nt vt N b tid2 x (List.mem_range.mp h2) hx2
      omega
  · refine (List.pairwise_lt_range grid).imp_of_mem ?_
    intro b1 b2 _ _ hlt x hx1 hx2
    rcases List.mem_flatMap.mp hx1 with ⟨tid1, ht1, hm1⟩
    rcases List.mem_flatMap.mp hx2 with ⟨tid2, ht2, hm2⟩
    have r1 := thread_indices_block_range nt vt N b1 tid1 x
      (List.mem_range.mp ht1) hm1
    have r2 := thread_indices_block_range nt vt N b2 tid2 x
      (List.mem_range.mp ht2) hm2
    have hmono : nt * vt * (b1 + 1) ≤ nt * vt * b2 :=
      Nat.mul_le_mul_left (nt * vt) hlt
    omega

/-- C7: in the legacy path, for every `N` in `[1, INT32_MAX]` launched with
`grid = ceil(N / (nt * vt))` and block size `nt`, the kernel invokes `f` on
every index in `[0, N)` exactly once, never invokes `f` on an index at or
beyond `N`, and each thread visits at most `vt` indices (at stride `nt`). -/
theorem legacy_exactly_once (nt vt N k : Nat) (hnt : 0 < nt) (hvt : 0 < vt)
    (hN1 : 1 ≤ N) (hN2 : (N : Int) ≤ INT32_MAX) :
    (k < N →
      (legacy.kernel_invocations nt vt N ((N + nt * vt - 1) / (nt * vt))).count k = 1) ∧
    (N ≤ k →
      (legacy.kernel_invocations nt vt N ((N + nt * vt - 1) / (nt * vt))).count k = 0) ∧
    (∀ b tid, (legacy.thread_indices nt N vt (nt * vt * b + tid)).length ≤ vt) := by
  have hnv : 0 < nt * vt := Nat.mul_pos hnt hvt
  refine ⟨?_, ?_, fun b tid => thread_indices_length_le nt N vt _⟩
  · intro hk
    refine List.count_eq_one_of_mem (legacy_invocations_nodup nt vt N _) ?_
    rw [mem_legacy_invocations]
    rcases index_decomposition nt vt k hnt hvt with ⟨hmod, hmod2, hdecomp⟩
    exact ⟨hk, k / (nt * vt), div_lt_ceil_div (nt * vt) N k hnv hk,
      k % nt, hmod, (k / nt) % vt, hmod2, hdecomp⟩
  · intro hk
    rw [List.count_eq_zero]
    intro hmem
    rcases (mem_legacy_invocations nt vt N _ k).mp hmem with ⟨hkN, _⟩
    omega

/-- C7 witness: with `nt = 2`, `vt = 2`, `N = 5`, index 3 is invoked exactly
once, index 7 never, and every thread visits at most 2 indices. -/
theorem legacy_exactly_once_witness :
    ((3 : Nat) < 5 →
      (legacy.kernel_invocations 2 2 5 ((5 + 2 * 2 - 1) / (2 * 2))).count 3 = 1) ∧
    ((5 : Nat) ≤ 3 →
      (legacy.kernel_invocations 2 2 5 ((5 + 2 * 2 - 1) / (2 * 2))).count 3 = 0) ∧
    (∀ b tid, (legacy.thread_indices 2 5 2 (2 * 2 * b + tid)).length ≤ 2) :=
  legacy_exactly_once 2 2 5 3 (by decide) (by decide) (by decide) (by decide)

/-- C10: for a zero-arity function, `modern::detail::can_vectorize_up_to`
returns exactly the feasible width of the output pointer for the return type;
the input loop runs zero iterations, the placeholder argument type is
`dont_care`, and neither the width function's behaviour on `dont_care` nor any
pointer other than `pointers[0]` influences the result. -/
theorem can_vectorize_up_to_nullary (mem mem2 : modern.CType → Nat → Int)
    (return_t f_arg0 f_arg02 : modern.CType) (pointers pointers2 : Nat → Nat) :
    modern.detail.can_vectorize_up_to mem return_t f_arg0 0 pointers =
      mem return_t (pointers 0) ∧
    modern.detail.arg_type f_arg0 0 = modern.CType.dont_care ∧
    (mem2 return_t (pointers2 0) = mem return_t (pointers 0) →
      modern.detail.can_vectorize_up_to mem2 return_t f_arg02 0 pointers2 =
        modern.detail.can_vectorize_up_to mem return_t f_arg0 0 pointers) := by
  refine ⟨rfl, rfl, ?_⟩
  intro h
  show mem2 return_t (pointers2 0) = mem return_t (pointers 0)
  exact h

/-- C10 witness: the nullary selector evaluated at concrete width functions
that disagree everywhere except on the output pointer. -/
theorem can_vectorize_up_to_nullary_witness :
    modern.detail.can_vectorize_up_to memW (modern.CType.base "float")
        modern.CType.dont_care 0 ptrW =
      memW (modern.CType.base "float") (ptrW 0) ∧
    modern.detail.arg_type modern.CType.dont_care 0 = modern.CType.dont_care ∧
    ((fun _ _ => (4 : Int)) (modern.CType.base "float") ((fun _ => 0) 0) =
        memW (modern.CType.base "float") (ptrW 0) →
      modern.detail.can_vectorize_up_to (fun _ _ => (4 : Int))
          (modern.CType.base "float") (modern.CType.base "double") 0 (fun _ => 0) =
        modern.detail.can_vectorize_up_to memW (modern.CType.base "float")
          modern.CType.dont_care 0 ptrW) :=
  can_vectorize_up_to_nullary memW (fun _ _ => (4 : Int)) (modern.CType.base "float")
    modern.CType.dont_care (modern.CType.base "double") ptrW (fun _ => 0)
